import Mathlib

/-!
Verification of `pytojsregex.py`, a Python-to-JavaScript regular-expression
converter.  The pipeline is embedded shallowly: each Python function becomes a
Lean function on `List Char` (the pattern text), with `String` wrappers at the
public boundary.  Python `re` flags are modelled as `Nat` bit-sets with the
CPython values: IGNORECASE = 2, MULTILINE = 8, DOTALL = 16, UNICODE = 32,
VERBOSE = 64.
-/

/-- Embedding of the scanning loop of `balance_parentheses`.  `d` is the size
of the `stack` (only its size is observable: pushed positions are popped and
discarded).  A backslash consumes itself plus the next character
(`result += regex[i:i+2]; i += 2`); a lone trailing backslash is emitted
alone.  `(` pushes, `)` pops when the stack is non-empty and is otherwise
emitted as `\)`.  At end of input one `)` is appended per open entry. -/
def balanceAux : List Char → Nat → List Char
  | [], d => List.replicate d ')'
  | c :: rest, d =>
    if c = '\\' then
      match rest with
      | [] => '\\' :: List.replicate d ')'
      | c2 :: rest2 => '\\' :: c2 :: balanceAux rest2 d
    else if c = '(' then '(' :: balanceAux rest (d + 1)
    else if c = ')' then
      match d with
      | 0 => '\\' :: ')' :: balanceAux rest 0
      | d' + 1 => ')' :: balanceAux rest d'
    else c :: balanceAux rest d

/-- Embedding of `balance_parentheses` (stack starts empty). -/
def balance_parentheses (regex : List Char) : List Char :=
  balanceAux regex 0

/-- Counts of non-escaped `(` and non-escaped `)` in a pattern: a backslash
consumes itself plus the next character, and parentheses inside such an
escape pair are not counted.  This is the measuring function for the
delimiter-balance guarantee of the spec. -/
def parenCounts : List Char → Nat × Nat
  | [] => (0, 0)
  | c :: rest =>
    if c = '\\' then
      match rest with
      | [] => (0, 0)
      | _ :: rest2 => parenCounts rest2
    else if c = '(' then ((parenCounts rest).1 + 1, (parenCounts rest).2)
    else if c = ')' then ((parenCounts rest).1, (parenCounts rest).2 + 1)
    else parenCounts rest

/-- A pattern is well-escaped when the escape scan never ends on a dangling
final backslash: every backslash that the left-to-right scan reads at an
escape position is followed by a character. -/
def wellEscaped : List Char → Bool
  | [] => true
  | c :: rest =>
    if c = '\\' then
      match rest with
      | [] => false
      | _ :: rest2 => wellEscaped rest2
    else wellEscaped rest

/-- Embedding of `handle_flags`: emits one letter per set bit, testing
IGNORECASE (2), MULTILINE (8), DOTALL (16) and UNICODE (32) in that fixed
order; no other bit (in particular not VERBOSE = 64) is consulted. -/
def handle_flags (py_flags : Nat) : String :=
  (if py_flags &&& 2 ≠ 0 then "i" else "") ++
  (if py_flags &&& 8 ≠ 0 then "m" else "") ++
  (if py_flags &&& 16 ≠ 0 then "s" else "") ++
  (if py_flags &&& 32 ≠ 0 then "u" else "")

/-- Embedding of `parse_flags`: ors in IGNORECASE (2) for `i`, MULTILINE (8)
for `m`, DOTALL (16) for `s`, VERBOSE (64) for `x` and UNICODE (32) for `u`;
any other letter contributes nothing. -/
def parse_flags (flags_str : String) : Nat :=
  let f0 : Nat := 0
  let f1 := if flags_str.data.contains 'i' then f0 ||| 2 else f0
  let f2 := if flags_str.data.contains 'm' then f1 ||| 8 else f1
  let f3 := if flags_str.data.contains 's' then f2 ||| 16 else f2
  let f4 := if flags_str.data.contains 'x' then f3 ||| 64 else f3
  if flags_str.data.contains 'u' then f4 ||| 32 else f4

/-- Word character test for the regex class `\w`.  CPython's `\w` on `str`
also matches non-ASCII word characters; the ASCII core is what the tested
behaviour of this converter exercises and what the counting claims range
over. -/
def isWordChar (c : Char) : Bool := c.isAlphanum || c = '_'

/-- Matcher for the lazy body of `\(\?:([^)]*?)\)\?` after the opener `(?:`:
`[^)]*?` takes the (necessarily unique) run of non-`)` characters up to the
first `)`, which must be followed by `?`.  Returns the captured group and the
rest of the input after the match. -/
def matchNCBody : List Char → Option (List Char × List Char)
  | [] => none
  | c :: rest =>
    if c = ')' then
      match rest with
      | [] => none
      | c2 :: rest2 => if c2 = '?' then some ([], rest2) else none
    else (matchNCBody rest).map (fun p => (c :: p.1, p.2))

/-- Matcher for the full pattern `\(\?:([^)]*?)\)\?` at the head of the
input. -/
def matchNC : List Char → Option (List Char × List Char)
  | c1 :: c2 :: c3 :: rest =>
    if c1 = '(' ∧ c2 = '?' ∧ c3 = ':' then matchNCBody rest else none
  | _ => none

/-- Embedding of the first substitution of `preserve_complex_pattern`:
`re.sub(r'\(\?:([^)]*?)\)\?', a lambda splicing group 1 between '(?:' and ')?', regex)` with group 1
spliced into the replacement, scanning left to right, advancing one
character past positions where no match starts and past each whole match.
The `fuel` argument (instantiated with the input length plus one, an upper
bound on the number of scan steps) makes the recursion structural. -/
def sub1NCF : Nat → List Char → List Char
  | 0, s => s
  | _ + 1, [] => []
  | fuel + 1, c :: rest =>
    match matchNC (c :: rest) with
    | some (g1, rest2) => '(' :: '?' :: ':' :: (g1 ++ ')' :: '?' :: sub1NCF fuel rest2)
    | none => c :: sub1NCF fuel rest

/-- Generic embedding of `re.sub` with replacement `m.group(0)`: every match
is replaced by the matched span itself.  `matchLen` gives the length of the
match starting at the current suffix, if any; the scan consumes the match
(re-emitting it as the replacement), treats an empty match like Python does
(emit the replacement, then advance one character), and advances one
character where no match starts. -/
def subGroup0F (matchLen : List Char → Option Nat) : Nat → List Char → List Char
  | 0, s => s
  | _ + 1, [] => []
  | fuel + 1, c :: rest =>
    match matchLen (c :: rest) with
    | some (n + 1) =>
        List.take (n + 1) (c :: rest) ++
          subGroup0F matchLen fuel (List.drop (n + 1) (c :: rest))
    | some 0 => c :: subGroup0F matchLen fuel rest
    | none => c :: subGroup0F matchLen fuel rest

/-- The non-multiline `$` of the second and third `preserve_complex_pattern`
patterns: it matches at the end of the input or just before a final
newline. -/
def dollarEnd : List Char → Bool
  | [] => true
  | [c] => c = '\n'
  | _ => false

/-- The trailing `\??$` of the second `preserve_complex_pattern` pattern:
the optional `?` is consumed greedily if `$` then matches, with fallback to
not consuming it. -/
def qDollar : List Char → Bool
  | '?' :: v => dollarEnd v || dollarEnd ('?' :: v)
  | v => dollarEnd v

/-- Candidate scan for `\[.*?\]` content: `.` excludes newlines, and lazy
backtracking means every `]` before the first newline is tried in order
until the continuation `\??$` succeeds.  Returns the consumed length after
the opening bracket. -/
def classCand : List Char → Option Nat
  | [] => none
  | c :: rest =>
    if c = '\n' then none
    else if c = ']' then
      if qDollar rest then some 1 else (classCand rest).map (· + 1)
    else (classCand rest).map (· + 1)

/-- Candidate scan for `\(.*?\)` content, analogous to `classCand`. -/
def parenCand : List Char → Option Nat
  | [] => none
  | c :: rest =>
    if c = '\n' then none
    else if c = ')' then
      if qDollar rest then some 1 else (parenCand rest).map (· + 1)
    else (parenCand rest).map (· + 1)

/-- The alternation `(\\\w|\[.*?\]|\(.*?\))?` of the second pattern followed
by `\??$`, tried at a fixed position in the source-order of the
alternatives, with the empty alternative last. -/
def altsAt (u : List Char) : Option Nat :=
  (match u with
   | '\\' :: c :: u2 => if isWordChar c && qDollar u2 then some 2 else none
   | _ => none) <|>
  (match u with
   | '[' :: u1 => (classCand u1).map (· + 1)
   | _ => none) <|>
  (match u with
   | '(' :: u1 => (parenCand u1).map (· + 1)
   | _ => none) <|>
  (if qDollar u then some 0 else none)

/-- Matcher for the second `preserve_complex_pattern` pattern
`([\w\s\S]*?)(\\\w|\[.*?\]|\(.*?\))?\??$`: the class `[\w\s\S]` matches any
character, so the lazy group 1 grows one character at a time until the
remainder of the pattern matches.  Returns the total match length. -/
def match2Len : List Char → Option Nat
  | [] => altsAt []
  | s@(_ :: rest) =>
    match altsAt s with
    | some k => some k
    | none => (match2Len rest).map (· + 1)

/-- The tail `\?\\n\?\+` of the third pattern after its closing `)`: a
literal `?`, a literal backslash, an optional letter `n` (consumed greedily)
and a literal `+`. -/
def m3After : List Char → Option Nat
  | '?' :: '\\' :: 'n' :: '+' :: _ => some 4
  | '?' :: '\\' :: '+' :: _ => some 3
  | _ => none

/-- Candidate scan for the `.*?\)` part of the third pattern: every `)`
before the first newline is tried in order until `m3After` accepts the
continuation. -/
def m3Cand : List Char → Option Nat
  | [] => none
  | c :: rest =>
    if c = '\n' then none
    else if c = ')' then
      match m3After rest with
      | some k => some (1 + k)
      | none => (m3Cand rest).map (· + 1)
    else (m3Cand rest).map (· + 1)

/-- Matcher for the third `preserve_complex_pattern` pattern
`(\(\?:.*?\)\?\\n\?)\+` at the head of the input. -/
def match3Len : List Char → Option Nat
  | '(' :: '?' :: ':' :: u => (m3Cand u).map (· + 3)
  | _ => none

/-- Embedding of `preserve_complex_pattern`: three `re.sub` passes in source
order.  The first re-emits `(?:` ++ group 1 ++ `)?` for each match of
`\(\?:([^)]*?)\)\?` (exactly the matched span); the second and third replace
each match of their pattern by `m.group(0)`, the matched span itself. -/
def preserve_complex_pattern (s : List Char) : List Char :=
  let a := sub1NCF (s.length + 1) s
  let b := subGroup0F match2Len (a.length + 1) a
  subGroup0F match3Len (b.length + 1) b

/-- Occurrences of a character in a pattern. -/
def countChar (c : Char) : List Char → Nat
  | [] => 0
  | d :: rest => (if d = c then 1 else 0) + countChar c rest

/-- Embedding of `regex.replace('\\A', '^')` (Python `str.replace` scans left
to right and replaces every non-overlapping occurrence). -/
def replaceAA : List Char → List Char
  | c1 :: c2 :: rest =>
    if c1 = '\\' ∧ c2 = 'A' then '^' :: replaceAA rest
    else c1 :: replaceAA (c2 :: rest)
  | s => s

/-- Embedding of `regex.replace('\\Z', '$')`. -/
def replaceZZ : List Char → List Char
  | c1 :: c2 :: rest =>
    if c1 = '\\' ∧ c2 = 'Z' then '$' :: replaceZZ rest
    else c1 :: replaceZZ (c2 :: rest)
  | s => s

/-- Number of occurrences of `\A`, counted non-overlapping left to right as
`str.replace` and `str.count` do. -/
def countAA : List Char → Nat
  | c1 :: c2 :: rest =>
    if c1 = '\\' ∧ c2 = 'A' then countAA rest + 1
    else countAA (c2 :: rest)
  | _ => 0

/-- Number of occurrences of `\Z`, counted non-overlapping left to right. -/
def countZZ : List Char → Nat
  | c1 :: c2 :: rest =>
    if c1 = '\\' ∧ c2 = 'Z' then countZZ rest + 1
    else countZZ (c2 :: rest)
  | _ => 0

/-- Substring test: embedding of the Python `in` operator on strings
(`needle in s`), checking whether the needle occurs at any position. -/
def containsSub (needle : List Char) : List Char → Bool
  | [] => needle.isEmpty
  | s@(_ :: rest) => needle.isPrefixOf s || containsSub needle rest

/-- Embedding of `regex.replace('(?>', '(?:')` used by
`handle_atomic_groups`. -/
def replaceAtomic : List Char → List Char
  | c1 :: c2 :: c3 :: rest =>
    if c1 = '(' ∧ c2 = '?' ∧ c3 = '>' then '(' :: '?' :: ':' :: replaceAtomic rest
    else c1 :: replaceAtomic (c2 :: c3 :: rest)
  | s => s

/-- Number of occurrences of the atomic-group opener `(?>`, counted
non-overlapping left to right. -/
def countAtomic : List Char → Nat
  | c1 :: c2 :: c3 :: rest =>
    if c1 = '(' ∧ c2 = '?' ∧ c3 = '>' then countAtomic rest + 1
    else countAtomic (c2 :: c3 :: rest)
  | _ => 0

/-- Number of occurrences of the non-capturing opener `(?:`, counted
non-overlapping left to right. -/
def countNC : List Char → Nat
  | c1 :: c2 :: c3 :: rest =>
    if c1 = '(' ∧ c2 = '?' ∧ c3 = ':' then countNC rest + 1
    else countNC (c2 :: c3 :: rest)
  | _ => 0

/-- Embedding of `js_regex.replace('\\a', '\\x07')` (bell escape). -/
def replaceBell : List Char → List Char
  | c1 :: c2 :: rest =>
    if c1 = '\\' ∧ c2 = 'a' then '\\' :: 'x' :: '0' :: '7' :: replaceBell rest
    else c1 :: replaceBell (c2 :: rest)
  | s => s

/-- Embedding of `js_regex.replace('\\N', '[^\\n]')`. -/
def replaceN : List Char → List Char
  | c1 :: c2 :: rest =>
    if c1 = '\\' ∧ c2 = 'N' then '[' :: '^' :: '\\' :: 'n' :: ']' :: replaceN rest
    else c1 :: replaceN (c2 :: rest)
  | s => s

/-- Embedding of `re.sub(r'\n', r'\\n', js_regex)`: each literal newline
character becomes the two characters backslash and `n`. -/
def escapeNewlines : List Char → List Char
  | [] => []
  | c :: rest =>
    if c = '\n' then '\\' :: 'n' :: escapeNewlines rest
    else c :: escapeNewlines rest

/-- Embedding of `re.sub(r'\(\?:', r'(?:', js_regex)`: each occurrence of
`(?:` is replaced by the identical text `(?:`. -/
def handleNonCapturingSub : List Char → List Char
  | c1 :: c2 :: c3 :: rest =>
    if c1 = '(' ∧ c2 = '?' ∧ c3 = ':' then '(' :: '?' :: ':' :: handleNonCapturingSub rest
    else c1 :: handleNonCapturingSub (c2 :: c3 :: rest)
  | s => s

/-- Embedding of `re.sub(r'\(\?x\)', '', regex)`: removes every occurrence
of the inline verbose marker `(?x)`. -/
def removeInlineX : List Char → List Char
  | c1 :: c2 :: c3 :: c4 :: rest =>
    if c1 = '(' ∧ c2 = '?' ∧ c3 = 'x' ∧ c4 = ')' then removeInlineX rest
    else c1 :: removeInlineX (c2 :: c3 :: c4 :: rest)
  | s => s

/-- Warning text appended by `handle_named_group_references` for the group
name `name`. -/
def namedRefMsg (name : List Char) : String :=
  "Named group reference \x27(?P=" ++ String.mk name ++
    ")\x27 is not directly supported in JavaScript. Converted to \x27\\k<" ++
    String.mk name ++ ">\x27, but may not work in all browsers."

/-- Embedding of `re.sub(r'\(\?P<(\w+)>', r'(?<\1>', js_regex)` inside
`conservative_conversion`: rewrites each named-group opener `(?P<name>` to
`(?<name>`.  The greedy `\w+` takes the maximal word-character run (the
following `>` is not a word character, so no backtracking can shorten it).
Fuel (input length plus one, an upper bound on scan steps) makes the
recursion structural; the fuel-exhausted branch is never reached. -/
def namedDefF : Nat → List Char → List Char
  | 0, s => s
  | fuel + 1, c1 :: c2 :: c3 :: c4 :: rest2 =>
    if c1 = '(' ∧ c2 = '?' ∧ c3 = 'P' ∧ c4 = '<' then
      match rest2.dropWhile isWordChar with
      | d :: rest3 =>
        if ¬rest2.takeWhile isWordChar = [] ∧ d = '>' then
          '(' :: '?' :: '<' :: (rest2.takeWhile isWordChar ++ '>' :: namedDefF fuel rest3)
        else '(' :: namedDefF fuel (c2 :: c3 :: c4 :: rest2)
      | [] => '(' :: namedDefF fuel (c2 :: c3 :: c4 :: rest2)
    else c1 :: namedDefF fuel (c2 :: c3 :: c4 :: rest2)
  | _ + 1, s => s

/-- Embedding of the `re.sub(r'\(\?P=(\w+)\)', replace_named_ref, regex)` of
`handle_named_group_references`: each `(?P=name)` becomes `\k<name>` and the
replacement lambda appends one warning per match, in scan order. -/
def namedRefF : Nat → List Char → List Char × List String
  | 0, s => (s, [])
  | fuel + 1, c1 :: c2 :: c3 :: c4 :: rest2 =>
    if c1 = '(' ∧ c2 = '?' ∧ c3 = 'P' ∧ c4 = '=' then
      match rest2.dropWhile isWordChar with
      | d :: rest3 =>
        if ¬rest2.takeWhile isWordChar = [] ∧ d = ')' then
          ('\\' :: 'k' :: '<' :: (rest2.takeWhile isWordChar ++ '>' :: (namedRefF fuel rest3).1),
            namedRefMsg (rest2.takeWhile isWordChar) :: (namedRefF fuel rest3).2)
        else
          ('(' :: (namedRefF fuel (c2 :: c3 :: c4 :: rest2)).1,
            (namedRefF fuel (c2 :: c3 :: c4 :: rest2)).2)
      | [] =>
        ('(' :: (namedRefF fuel (c2 :: c3 :: c4 :: rest2)).1,
          (namedRefF fuel (c2 :: c3 :: c4 :: rest2)).2)
    else
      (c1 :: (namedRefF fuel (c2 :: c3 :: c4 :: rest2)).1,
        (namedRefF fuel (c2 :: c3 :: c4 :: rest2)).2)
  | _ + 1, s => (s, [])

/-- Number of occurrences of the named back-reference construct `(?P=name)`
(`name` a non-empty word-character run), counted by the same left-to-right
non-overlapping scan that `re.sub` performs. -/
def countNamedRefF : Nat → List Char → Nat
  | 0, _ => 0
  | fuel + 1, c1 :: c2 :: c3 :: c4 :: rest2 =>
    if c1 = '(' ∧ c2 = '?' ∧ c3 = 'P' ∧ c4 = '=' then
      match rest2.dropWhile isWordChar with
      | d :: rest3 =>
        if ¬rest2.takeWhile isWordChar = [] ∧ d = ')' then countNamedRefF fuel rest3 + 1
        else countNamedRefF fuel (c2 :: c3 :: c4 :: rest2)
      | [] => countNamedRefF fuel (c2 :: c3 :: c4 :: rest2)
    else countNamedRefF fuel (c2 :: c3 :: c4 :: rest2)
  | _ + 1, _ => 0

/-- Embedding of the
`re.sub(r'\(\?:[^)]*?\)\?', a lambda splicing group 1 between '(?:' and ')?', js_regex)` of
`conservative_conversion`, where the interpolation is `m.group(0)`: each
matched optional non-capturing group `(?:X)?` is wrapped once more, giving
`(?:(?:X)?)?`. -/
def wrapOptF : Nat → List Char → List Char
  | 0, s => s
  | _ + 1, [] => []
  | fuel + 1, c :: rest =>
    match matchNC (c :: rest) with
    | some (g1, rest2) =>
      '(' :: '?' :: ':' :: '(' :: '?' :: ':' ::
        (g1 ++ ')' :: '?' :: ')' :: '?' :: wrapOptF fuel rest2)
    | none => c :: wrapOptF fuel rest

/-- Embedding of `handle_named_group_references`. -/
def handle_named_group_references (s : List Char) : List Char × List String :=
  namedRefF (s.length + 1) s

/-- Occurrence count of `(?P=name)` in a pattern. -/
def countNamedRef (s : List Char) : Nat := countNamedRefF (s.length + 1) s

/-- Warning text of `handle_atomic_groups`. -/
def atomicWarning : String :=
  "Atomic groups are not supported in JavaScript. Converted to non-capturing groups."

/-- Warning text of `handle_unicode_properties`. -/
def unicodeWarning : String :=
  "Unicode property escapes require the \x27u\x27 flag in JavaScript."

/-- Warning text for lookbehind assertions. -/
def lookbehindWarning : String :=
  "Lookbehind assertions have limited support in JavaScript."

/-- Warning text for the `\N` rewrite. -/
def escapeNWarning : String :=
  "\x27\\N\x27 is converted to \x27[^\\n]\x27, which may not behave identically in all cases."

/-- Warning text of `check_unsupported_features`. -/
def conditionalWarning : String :=
  "Conditional patterns are not supported in JavaScript. This part of the regex may not work as expected."

/-- Embedding of `handle_atomic_groups`: if the pattern contains `(?>`
anywhere, ONE warning is appended and every occurrence is replaced by
`(?:`; otherwise the pattern is returned unchanged with no warning. -/
def handle_atomic_groups (s : List Char) : List Char × List String :=
  if containsSub ['(', '?', '>'] s then (replaceAtomic s, [atomicWarning])
  else (s, [])

/-- Embedding of `handle_unicode_properties`: warns (once) when `\p` or `\P`
occurs; never changes the pattern. -/
def handle_unicode_properties (s : List Char) : List Char × List String :=
  if containsSub ['\\', 'p'] s || containsSub ['\\', 'P'] s then (s, [unicodeWarning])
  else (s, [])

/-- Embedding of `check_unsupported_features`: warns (once) when `(?(1)`
occurs. -/
def check_unsupported_features (s : List Char) : List String :=
  if containsSub ['(', '?', '(', '1', ')'] s then [conditionalWarning] else []

/-- Embedding of `conservative_conversion`: anchor replacement (`\A` to `^`,
then `\Z` to `$`), then the named-group-opener rewrite, then the
optional-non-capturing-group wrapping substitution, in source order. -/
def conservative_conversion (s : List Char) : List Char :=
  let a := replaceZZ (replaceAA s)
  let b := namedDefF (a.length + 1) a
  wrapOptF (b.length + 1) b

/-- The whitespace class `\s` (and `str.strip`'s default set) for ASCII
patterns. -/
def pyIsSpace (c : Char) : Bool :=
  c = ' ' || c = '\t' || c = '\n' || c = '\x0b' || c = '\x0c' || c = '\r'

/-- Embedding of `re.sub(r'(?<!\\)#.*$', '', regex, flags=re.MULTILINE)`:
removes, on every line, the span from an unescaped `#` (one whose directly
preceding character is not a backslash) to the end of the line.  `prev` is
the character preceding the scan position in the original string (the
lookbehind window); after a removed comment the next character is a newline
or the end of input, neither of which consults `prev`. -/
def removeCommentsF : Nat → Option Char → List Char → List Char
  | 0, _, s => s
  | _ + 1, _, [] => []
  | fuel + 1, prev, c :: rest =>
    if c = '#' ∧ prev ≠ some '\\' then
      removeCommentsF fuel (some '#') (rest.dropWhile (fun d => !(d = '\n')))
    else c :: removeCommentsF fuel (some c) rest

/-- The trailing `[^[\]]*$` of the whitespace-removal lookahead: the rest of
the input must contain no square bracket (a final newline, matched by `$`,
is in the class anyway, so full consumption is equivalent). -/
def laTail (s : List Char) : Bool :=
  s.all (fun c => !(c = '[' || c = ']'))

/-- Scan of a character-class body `[^[\]]*\]` after its opening bracket:
content up to the first bracket, which must be the closing `]`. -/
def splitClass : List Char → Option (List Char)
  | [] => none
  | c :: rest =>
    if c = '[' then none
    else if c = ']' then some rest
    else splitClass rest

/-- One iteration `[^[\]()\\]*(?:\\.[^[\]()\\]*)*\[[^[\]]*\]` of the
whitespace-removal lookahead: plain characters and escape pairs (whose
second character may not be a newline, as `.` excludes it) up to a `[`,
then a complete character class.  Returns the rest after the class. -/
def tryBlock : List Char → Option (List Char)
  | [] => none
  | c :: rest =>
    if c = '[' then splitClass rest
    else if c = '\\' then
      match rest with
      | [] => none
      | c2 :: rest2 => if c2 = '\n' then none else tryBlock rest2
    else if c = '(' || c = ')' || c = ']' then none
    else tryBlock rest

/-- Iterated block scan of the lookahead
`(?:[^[\]()\\]*(?:\\.[^[\]()\\]*)*\[[^[\]]*\])*[^[\]]*$`: greedily consume
block iterations (whenever a block parses, taking it is the only option,
since the tail admits no `[`), then check the tail. -/
def laScanF : Nat → List Char → Bool
  | 0, s => laTail s
  | fuel + 1, s =>
    match tryBlock s with
    | some rest => laScanF fuel rest
    | none => laTail s

/-- The whitespace-removal lookahead, with enough fuel for the input. -/
def laHolds (s : List Char) : Bool := laScanF (s.length + 1) s

/-- Backtracking search of `\s+(?=lookahead)` within a maximal whitespace
run: the greedy `\s+` tries the longest candidate first, so the largest
`j ≥ 1` whose end position satisfies the lookahead wins.  `j` is the current
candidate, `revRun` the reversal of the run's first `j` characters and
`suffix` the input from the candidate's end position. -/
def findJGo : Nat → List Char → List Char → Option Nat
  | 0, _, _ => none
  | j + 1, revRun, suffix =>
    if laHolds suffix then some (j + 1)
    else
      match revRun with
      | [] => none
      | c :: revRest => findJGo j revRest (c :: suffix)

/-- Largest `j` with `1 ≤ j ≤ run.length` such that the lookahead holds
after the run's first `j` characters. -/
def findJ (run rest : List Char) : Option Nat :=
  findJGo run.length run.reverse rest

/-- Embedding of the whitespace-removal substitution
`re.sub(r'\s+(?=...)', '', regex)` of `handle_verbose_mode`.  At a
whitespace run, the longest prefix whose end position satisfies the
lookahead is removed (shorter attempts from later start positions inside
the run check only end positions that already failed); if no prefix
qualifies, the whole run is kept. -/
def removeWsF : Nat → List Char → List Char
  | 0, s => s
  | _ + 1, [] => []
  | fuel + 1, c :: rest =>
    if pyIsSpace c then
      match findJ ((c :: rest).takeWhile pyIsSpace) ((c :: rest).dropWhile pyIsSpace) with
      | some j =>
        removeWsF fuel (((c :: rest).takeWhile pyIsSpace).drop j ++
          (c :: rest).dropWhile pyIsSpace)
      | none =>
        (c :: rest).takeWhile pyIsSpace ++ removeWsF fuel ((c :: rest).dropWhile pyIsSpace)
    else c :: removeWsF fuel rest

/-- Embedding of `str.strip()` (no arguments: whitespace at both ends). -/
def pyStrip (s : List Char) : List Char :=
  ((s.dropWhile pyIsSpace).reverse.dropWhile pyIsSpace).reverse

/-- Embedding of `handle_verbose_mode`: comment removal, whitespace
removal, inline `(?x)` removal, then `strip()`. -/
def handle_verbose_mode (s : List Char) : List Char :=
  let a := removeCommentsF (s.length + 1) none s
  let b := removeWsF (a.length + 1) a
  pyStrip (removeInlineX b)

/-- Embedding of `py_regex.lstrip('r')`: removes every leading `r`. -/
def lstripR (s : List Char) : List Char := s.dropWhile (fun c => c = 'r')

/-- The quote set of `strip("'\"")`. -/
def isQuoteChar (c : Char) : Bool := c = '\x27' || c = '"'

/-- Embedding of `.strip("'\"")`: removes every leading and trailing quote
character. -/
def stripQuotes (s : List Char) : List Char :=
  ((s.dropWhile isQuoteChar).reverse.dropWhile isQuoteChar).reverse

/-- The first step of `py_to_js_regex`:
`py_regex.lstrip('r').strip("'\"")`. -/
def stripStage (s : List Char) : List Char := stripQuotes (lstripR s)

/-- Embedding of `py_to_js_regex`.  Returns `(js_regex, warnings_list,
steps)`; the first component is an `Option` mirroring the `except
RegexConversionError` branch, which would return `None` — no pipeline stage
raises `RegexConversionError` (the exception class is defined but never
raised), so the embedding always produces `some`.  Stages run in source
order; each `steps` append is guarded exactly as in the source. -/
def py_to_js_regex (py_regex : String) (py_flags : Nat) (verbose : Bool) :
    Option String × List String × List String :=
  let original := py_regex.data
  let steps0 : List String :=
    if verbose then ["Original Python regex: " ++ py_regex] else []
  let p1 := stripStage original
  let steps1 := steps0 ++
    (if verbose ∧ ¬p1 = original then ["Stripped \x27r\x27 prefix and quotes: " ++ String.mk p1] else [])
  let p2 := if py_flags &&& 64 ≠ 0 then handle_verbose_mode p1 else p1
  let flags2 := if py_flags &&& 64 ≠ 0 then py_flags - 64 else py_flags
  let steps2 := steps1 ++
    (if py_flags &&& 64 ≠ 0 ∧ verbose then ["Handled verbose mode: " ++ String.mk p2] else [])
  let j1 := conservative_conversion p2
  let steps3 := steps2 ++
    (if verbose ∧ ¬j1 = p2 then ["Converted Python-specific syntax: " ++ String.mk j1] else [])
  let r2 := handle_named_group_references j1
  let steps4 := steps3 ++
    (if verbose ∧ ¬r2.2 = [] then ["Handled named group references: " ++ String.mk r2.1] else [])
  let j3 := handleNonCapturingSub r2.1
  let steps5 := steps4 ++
    (if verbose then ["Handled non-capturing groups: " ++ String.mk j3] else [])
  let j4 := preserve_complex_pattern j3
  let steps6 := steps5 ++
    (if verbose then ["Preserved complex patterns: " ++ String.mk j4] else [])
  let r5 := handle_atomic_groups j4
  let steps7 := steps6 ++
    (if verbose ∧ ¬r5.2 = [] then ["Handled atomic groups: " ++ String.mk r5.1] else [])
  let r6 := handle_unicode_properties r5.1
  let steps8 := steps7 ++
    (if verbose ∧ ¬r6.2 = [] then ["Handled Unicode property escapes: " ++ String.mk r6.1] else [])
  let hasLookbehind :=
    containsSub ['(', '?', '<', '='] r6.1 || containsSub ['(', '?', '<', '!'] r6.1
  let lookW : List String := if hasLookbehind then [lookbehindWarning] else []
  let steps9 := steps8 ++
    (if hasLookbehind = true ∧ verbose then ["Warned about lookbehind assertions"] else [])
  let j7 := replaceBell r6.1
  let hasN := containsSub ['\\', 'N'] j7
  let j8 := if hasN then replaceN j7 else j7
  let nW : List String := if hasN then [escapeNWarning] else []
  let steps10 := steps9 ++
    (if hasN = true ∧ verbose then ["Converted additional escape sequences"] else [])
  let j9 := escapeNewlines j8
  let steps11 := steps10 ++
    (if verbose then ["Ensured pattern preservation: " ++ String.mk j9] else [])
  let unsW := check_unsupported_features j9
  let steps12 := steps11 ++
    (if verbose ∧ ¬unsW = [] then ["Checked for unsupported features"] else [])
  let j10 := balance_parentheses j9
  let steps13 := steps12 ++
    (if verbose then ["Ensured balanced parentheses: " ++ String.mk j10] else [])
  let jsFlags := handle_flags flags2
  let steps14 := steps13 ++
    (if verbose then ["Handled flags: " ++ jsFlags] else [])
  let finalJs := "/" ++ String.mk j10 ++ "/" ++ jsFlags
  let steps15 := steps14 ++
    (if verbose then ["Final JavaScript regex: " ++ finalJs] else [])
  (some finalJs, r2.2 ++ r5.2 ++ r6.2 ++ lookW ++ nW ++ unsW, steps15)

/-- A pattern is dense (already normalized) when it contains no whitespace,
no comment introducer `#`, and no inline verbose marker `(?x)`. -/
def isDense (s : List Char) : Bool :=
  s.all (fun c => !pyIsSpace c && !(c == '#')) &&
    !containsSub ['(', '?', 'x', ')'] s

theorem parenCounts_escape (c : Char) (rest : List Char) :
    parenCounts ('\\' :: c :: rest) = parenCounts rest := by
  rw [parenCounts.eq_def]; simp

theorem parenCounts_open (rest : List Char) :
    parenCounts ('(' :: rest) = ((parenCounts rest).1 + 1, (parenCounts rest).2) := by
  rw [parenCounts.eq_def]; simp

theorem parenCounts_close (rest : List Char) :
    parenCounts (')' :: rest) = ((parenCounts rest).1, (parenCounts rest).2 + 1) := by
  rw [parenCounts.eq_def]; simp

theorem parenCounts_cons_other (c : Char) (rest : List Char)
    (h1 : ¬c = '\\') (h2 : ¬c = '(') (h3 : ¬c = ')') :
    parenCounts (c :: rest) = parenCounts rest := by
  rw [parenCounts.eq_def]
  simp only [if_neg h1, if_neg h2, if_neg h3]

theorem wellEscaped_escape (c : Char) (rest : List Char) :
    wellEscaped ('\\' :: c :: rest) = wellEscaped rest := by
  rw [wellEscaped.eq_def]; simp

theorem wellEscaped_cons_ne (c : Char) (rest : List Char) (h : ¬c = '\\') :
    wellEscaped (c :: rest) = wellEscaped rest := by
  rw [wellEscaped.eq_def]
  simp only [if_neg h]

theorem balanceAux_escape (c : Char) (rest : List Char) (d : Nat) :
    balanceAux ('\\' :: c :: rest) d = '\\' :: c :: balanceAux rest d := by
  rw [balanceAux.eq_def]; simp

theorem balanceAux_open (rest : List Char) (d : Nat) :
    balanceAux ('(' :: rest) d = '(' :: balanceAux rest (d + 1) := by
  rw [balanceAux.eq_def]; simp

theorem balanceAux_close_zero (rest : List Char) :
    balanceAux (')' :: rest) 0 = '\\' :: ')' :: balanceAux rest 0 := by
  rw [balanceAux.eq_def]; simp

theorem balanceAux_close_succ (rest : List Char) (d' : Nat) :
    balanceAux (')' :: rest) (d' + 1) = ')' :: balanceAux rest d' := by
  rw [balanceAux.eq_def]; simp

theorem balanceAux_cons_other (c : Char) (rest : List Char) (d : Nat)
    (h1 : ¬c = '\\') (h2 : ¬c = '(') (h3 : ¬c = ')') :
    balanceAux (c :: rest) d = c :: balanceAux rest d := by
  rw [balanceAux.eq_def]
  simp only [if_neg h1, if_neg h2, if_neg h3]

theorem parenCounts_replicate (d : Nat) :
    parenCounts (List.replicate d ')') = (0, d) := by
  induction d with
  | zero => rfl
  | succ n ih =>
    have h : List.replicate (n + 1) ')' = ')' :: List.replicate n ')' := rfl
    rw [h, parenCounts_close, ih]

theorem balanceAux_counts (s : List Char) (d : Nat) (h : wellEscaped s = true) :
    (parenCounts (balanceAux s d)).1 + d = (parenCounts (balanceAux s d)).2 := by
  induction s, d using balanceAux.induct with
  | case1 d =>
    have hb : balanceAux [] d = List.replicate d ')' := by rw [balanceAux.eq_def]
    rw [hb, parenCounts_replicate]
    simp
  | case2 d =>
    exact absurd h (by decide)
  | case3 d c2 rest2 ih =>
    rw [wellEscaped_escape] at h
    rw [balanceAux_escape, parenCounts_escape]
    exact ih h
  | case4 rest d _ ih =>
    rw [wellEscaped_cons_ne '(' rest (by decide)] at h
    rw [balanceAux_open, parenCounts_open]
    have := ih h
    omega
  | case5 rest _ _ ih =>
    rw [wellEscaped_cons_ne ')' rest (by decide)] at h
    rw [balanceAux_close_zero, parenCounts_escape]
    simpa using ih h
  | case6 rest d' _ _ ih =>
    rw [wellEscaped_cons_ne ')' rest (by decide)] at h
    rw [balanceAux_close_succ, parenCounts_close]
    have := ih h
    omega
  | case7 c rest d h1 h2 h3 ih =>
    rw [wellEscaped_cons_ne c rest h1] at h
    rw [balanceAux_cons_other c rest d h1 h2 h3,
      parenCounts_cons_other c _ h1 h2 h3]
    exact ih h

theorem balanceAux_sublist (s : List Char) (d : Nat) :
    List.Sublist s (balanceAux s d) := by
  induction s, d using balanceAux.induct with
  | case1 d =>
    exact List.nil_sublist _
  | case2 d =>
    have hb : balanceAux ['\\'] d = '\\' :: List.replicate d ')' := by
      rw [balanceAux.eq_def]; simp
    rw [hb]
    exact (List.nil_sublist _).cons₂ '\\'
  | case3 d c2 rest2 ih =>
    rw [balanceAux_escape]
    exact (ih.cons₂ c2).cons₂ '\\'
  | case4 rest d _ ih =>
    rw [balanceAux_open]
    exact ih.cons₂ '('
  | case5 rest _ _ ih =>
    rw [balanceAux_close_zero]
    exact (ih.cons₂ ')').cons '\\'
  | case6 rest d' _ _ ih =>
    rw [balanceAux_close_succ]
    exact ih.cons₂ ')'
  | case7 c rest d h1 h2 h3 ih =>
    rw [balanceAux_cons_other c rest d h1 h2 h3]
    exact ih.cons₂ c

/-- C1 (amended): for every input, `balance_parentheses` drops no character
— the input appears in order as a sublist of the output (closers are
appended and a backslash is inserted before an unmatched closer, as the
scan dictates); and whenever the input is well-escaped (no dangling final
backslash), the output's non-escaped `(` and non-escaped `)` counts are
equal. -/
theorem balance_parentheses_spec (s : List Char) :
    (wellEscaped s = true →
      (parenCounts (balance_parentheses s)).1 =
        (parenCounts (balance_parentheses s)).2) ∧
    List.Sublist s (balance_parentheses s) := by
  refine ⟨fun h => ?_, balanceAux_sublist s 0⟩
  have := balanceAux_counts s 0 h
  simpa [balance_parentheses] using this

/-- Witness for C1: the concrete input `((a)` is well-escaped; its balanced
output has equal non-escaped delimiter counts and contains the input as a
sublist. -/
theorem balance_parentheses_spec_witness :
    (parenCounts (balance_parentheses ['(', '(', 'a', ')'])).1 =
      (parenCounts (balance_parentheses ['(', '(', 'a', ')'])).2 ∧
    List.Sublist ['(', '(', 'a', ')'] (balance_parentheses ['(', '(', 'a', ')']) :=
  ⟨(balance_parentheses_spec ['(', '(', 'a', ')']).1 (by decide),
    (balance_parentheses_spec ['(', '(', 'a', ')']).2⟩

/-- C1 counterexample: on the input `(\` (open parenthesis followed by a lone
trailing backslash) the scan emits the backslash, then appends a closer for
the still-open `(`; that closer lands directly after the backslash, so it is
escaped in the output `(\)` and the non-escaped counts are 1 and 0, not
equal. -/
theorem balance_parentheses_counterexample :
    ¬ ((parenCounts (balance_parentheses ['(', '\\'])).1 =
       (parenCounts (balance_parentheses ['(', '\\'])).2) := by
  decide

/-- C2: for every flag-letter string `s`, `handle_flags (parse_flags s)`
consists exactly of the table letters `i`, `m`, `s`, `u` that occur in `s`,
emitted in that fixed table order; letters outside the table are dropped
without error (they set no bit), and the verbose letter `x` — although
recognized by `parse_flags`, which maps it to bit 64 — never appears in the
emitted flag string. -/
theorem handle_flags_parse_flags_spec (s : String) :
    handle_flags (parse_flags s) =
      (if s.data.contains 'i' then "i" else "") ++ (if s.data.contains 'm' then "m" else "") ++
      (if s.data.contains 's' then "s" else "") ++ (if s.data.contains 'u' then "u" else "") ∧
    ('x' ∈ (handle_flags (parse_flags s)).data → False) ∧
    parse_flags "x" = 64 := by
  cases hi : s.data.contains 'i' <;> cases hm : s.data.contains 'm' <;>
    cases hs : s.data.contains 's' <;> cases hx : s.data.contains 'x' <;>
    cases hu : s.data.contains 'u' <;>
    simp only [parse_flags, handle_flags, hi, hm, hs, hx, hu] <;> decide

theorem matchNCBody_found (rest2 : List Char) :
    matchNCBody (')' :: '?' :: rest2) = some ([], rest2) := by
  rw [matchNCBody.eq_def]; simp

theorem matchNCBody_cons_ne (c : Char) (rest : List Char) (h : ¬c = ')') :
    matchNCBody (c :: rest) = (matchNCBody rest).map (fun p => (c :: p.1, p.2)) := by
  rw [matchNCBody.eq_def]
  simp only [if_neg h]

theorem matchNCBody_eq (l g r : List Char) (h : matchNCBody l = some (g, r)) :
    l = g ++ ')' :: '?' :: r := by
  induction l using matchNCBody.induct generalizing g with
  | case1 => simp [matchNCBody] at h
  | case2 => simp [matchNCBody] at h
  | case3 rest2 =>
    rw [matchNCBody_found] at h
    simp only [Option.some.injEq, Prod.mk.injEq] at h
    obtain ⟨h1, h2⟩ := h
    subst h1; subst h2
    rfl
  | case4 c2 rest2 hne =>
    rw [matchNCBody.eq_def] at h
    simp [if_neg hne] at h
  | case5 c2 rest2 hne ih =>
    rw [matchNCBody_cons_ne c2 rest2 hne] at h
    cases hm : matchNCBody rest2 with
    | none => rw [hm] at h; simp at h
    | some p =>
      obtain ⟨g2, r2⟩ := p
      rw [hm] at h
      dsimp only [Option.map] at h
      rw [Option.some.injEq, Prod.mk.injEq] at h
      obtain ⟨h1, h2⟩ := h
      subst h2
      rw [← h1]
      simpa using ih g2 hm

theorem matchNC_eq (s g r : List Char) (h : matchNC s = some (g, r)) :
    s = '(' :: '?' :: ':' :: (g ++ ')' :: '?' :: r) := by
  match s with
  | [] => rw [matchNC.eq_def] at h; dsimp only at h; exact Option.noConfusion h
  | [c1] => rw [matchNC.eq_def] at h; dsimp only at h; exact Option.noConfusion h
  | [c1, c2] => rw [matchNC.eq_def] at h; dsimp only at h; exact Option.noConfusion h
  | c1 :: c2 :: c3 :: rest =>
    rw [matchNC.eq_def] at h
    dsimp only at h
    by_cases hc : c1 = '(' ∧ c2 = '?' ∧ c3 = ':'
    · obtain ⟨h1, h2, h3⟩ := hc
      subst h1; subst h2; subst h3
      rw [if_pos (show ('(' = '(' ∧ '?' = '?' ∧ ':' = ':') from ⟨rfl, rfl, rfl⟩)] at h
      rw [matchNCBody_eq rest g r h]
    · rw [if_neg hc] at h
      exact Option.noConfusion h

theorem matchNCBody_length (l g r : List Char) (h : matchNCBody l = some (g, r)) :
    r.length < l.length := by
  have he := matchNCBody_eq l g r h
  subst he
  simp
  omega

theorem sub1NCF_id (fuel : Nat) (s : List Char) : sub1NCF fuel s = s := by
  induction fuel generalizing s with
  | zero => rfl
  | succ n ih =>
    cases s with
    | nil => rfl
    | cons c rest =>
      rw [sub1NCF.eq_def]
      cases hm : matchNC (c :: rest) with
      | none => simp only [hm]; rw [ih]
      | some p =>
        obtain ⟨g1, rest2⟩ := p
        simp only [hm, ih]
        exact (matchNC_eq _ _ _ hm).symm

theorem subGroup0F_id (matchLen : List Char → Option Nat) (fuel : Nat)
    (s : List Char) : subGroup0F matchLen fuel s = s := by
  induction fuel generalizing s with
  | zero => rfl
  | succ n ih =>
    cases s with
    | nil => rfl
    | cons c rest =>
      rw [subGroup0F.eq_def]
      cases hm : matchLen (c :: rest) with
      | none => simp only [hm]; rw [ih]
      | some k =>
        cases k with
        | zero => simp only [hm]; rw [ih]
        | succ m => simp only [hm]; rw [ih, List.take_append_drop]

/-- C3: the rule-4 "preserve complex pattern" pass is a structural no-op:
each of its three substitutions re-emits its matched span unchanged, so the
pass returns its input unchanged for every input — in particular any
`(?:...)?` span present in its input is byte-identical in its output. -/
theorem preserve_complex_pattern_noop (s : List Char) :
    preserve_complex_pattern s = s := by
  simp only [preserve_complex_pattern, sub1NCF_id, subGroup0F_id]

theorem countAA_cons_ne (c : Char) (t : List Char) (h : ¬c = '\\') :
    countAA (c :: t) = countAA t := by
  cases t with
  | nil => rfl
  | cons c2 t2 =>
    rw [countAA.eq_def]
    dsimp only
    rw [if_neg (fun hh : c = '\\' ∧ c2 = 'A' => h hh.1)]

theorem countAA_cons_backslash (t : List Char) (h : t.head? ≠ some 'A') :
    countAA ('\\' :: t) = countAA t := by
  cases t with
  | nil => rfl
  | cons c2 t2 =>
    have h2 : ¬c2 = 'A' := by intro hh; exact h (by rw [hh]; rfl)
    rw [countAA.eq_def]
    dsimp only
    rw [if_neg (fun hh : '\\' = '\\' ∧ c2 = 'A' => h2 hh.2)]

theorem countAA_match (t : List Char) : countAA ('\\' :: 'A' :: t) = countAA t + 1 := by
  rw [countAA.eq_def]; simp

theorem replaceAA_head_ne (c : Char) (t : List Char) (h : ¬c = 'A') :
    (replaceAA (c :: t)).head? ≠ some 'A' := by
  cases t with
  | nil =>
    intro hh
    rw [show replaceAA [c] = [c] from rfl] at hh
    exact h (by simpa using hh)
  | cons c2 t2 =>
    rw [replaceAA.eq_def]
    dsimp only
    by_cases hc : c = '\\' ∧ c2 = 'A'
    · rw [if_pos hc]; simp
    · rw [if_neg hc]
      intro hh
      exact h (by simpa using hh)

theorem replaceAA_match (t : List Char) :
    replaceAA ('\\' :: 'A' :: t) = '^' :: replaceAA t := by
  rw [replaceAA.eq_def]; simp

theorem replaceAA_cons_ne (c1 c2 : Char) (t : List Char) (h : ¬(c1 = '\\' ∧ c2 = 'A')) :
    replaceAA (c1 :: c2 :: t) = c1 :: replaceAA (c2 :: t) := by
  rw [replaceAA.eq_def]
  dsimp only
  rw [if_neg h]

theorem countAA_replaceAA (s : List Char) : countAA (replaceAA s) = 0 := by
  induction s using replaceAA.induct with
  | case1 c1 c2 rest h ih =>
    obtain ⟨h1, h2⟩ := h
    subst h1; subst h2
    rw [replaceAA_match]
    rw [countAA_cons_ne '^' _ (by decide), ih]
  | case2 c1 c2 rest h ih =>
    rw [replaceAA_cons_ne c1 c2 rest h]
    by_cases hc1 : c1 = '\\'
    · subst hc1
      have hc2 : ¬c2 = 'A' := fun hh => h ⟨rfl, hh⟩
      rw [countAA_cons_backslash _ (replaceAA_head_ne c2 rest hc2), ih]
    · rw [countAA_cons_ne c1 _ hc1, ih]
  | case3 s h =>
    match s with
    | [] => rfl
    | [c] => rfl
    | c1 :: c2 :: rest => exact absurd rfl (h c1 c2 rest)

theorem countChar_cons (c d : Char) (t : List Char) :
    countChar c (d :: t) = (if d = c then 1 else 0) + countChar c t := by
  rw [countChar.eq_def]

theorem countAA_cons2_ne (c1 c2 : Char) (t : List Char) (h : ¬(c1 = '\\' ∧ c2 = 'A')) :
    countAA (c1 :: c2 :: t) = countAA (c2 :: t) := by
  rw [countAA.eq_def]
  dsimp only
  rw [if_neg h]

theorem countChar_replaceAA (s : List Char) :
    countChar '^' (replaceAA s) = countChar '^' s + countAA s := by
  induction s using replaceAA.induct with
  | case1 c1 c2 rest h ih =>
    obtain ⟨h1, h2⟩ := h
    subst h1; subst h2
    rw [replaceAA_match, countChar_cons, ih, countChar_cons, countChar_cons,
      countAA_match]
    simp
    omega
  | case2 c1 c2 rest h ih =>
    rw [replaceAA_cons_ne c1 c2 rest h]
    simp only [countChar_cons]
    rw [ih, countAA_cons2_ne c1 c2 rest h]
    simp only [countChar_cons]
    omega
  | case3 s h =>
    match s with
    | [] => rfl
    | [c] =>
      rw [show replaceAA [c] = [c] from rfl, show countAA [c] = 0 from rfl]
      simp
    | c1 :: c2 :: rest => exact absurd rfl (h c1 c2 rest)

theorem countZZ_cons_ne (c : Char) (t : List Char) (h : ¬c = '\\') :
    countZZ (c :: t) = countZZ t := by
  cases t with
  | nil => rfl
  | cons c2 t2 =>
    rw [countZZ.eq_def]
    dsimp only
    rw [if_neg (fun hh : c = '\\' ∧ c2 = 'Z' => h hh.1)]

theorem countZZ_cons_backslash (t : List Char) (h : t.head? ≠ some 'Z') :
    countZZ ('\\' :: t) = countZZ t := by
  cases t with
  | nil => rfl
  | cons c2 t2 =>
    have h2 : ¬c2 = 'Z' := by intro hh; exact h (by rw [hh]; rfl)
    rw [countZZ.eq_def]
    dsimp only
    rw [if_neg (fun hh : '\\' = '\\' ∧ c2 = 'Z' => h2 hh.2)]

theorem countZZ_match (t : List Char) : countZZ ('\\' :: 'Z' :: t) = countZZ t + 1 := by
  rw [countZZ.eq_def]; simp

theorem countZZ_cons2_ne (c1 c2 : Char) (t : List Char) (h : ¬(c1 = '\\' ∧ c2 = 'Z')) :
    countZZ (c1 :: c2 :: t) = countZZ (c2 :: t) := by
  rw [countZZ.eq_def]
  dsimp only
  rw [if_neg h]

theorem replaceZZ_head_ne (c : Char) (t : List Char) (h : ¬c = 'Z') :
    (replaceZZ (c :: t)).head? ≠ some 'Z' := by
  cases t with
  | nil =>
    intro hh
    rw [show replaceZZ [c] = [c] from rfl] at hh
    exact h (by simpa using hh)
  | cons c2 t2 =>
    rw [replaceZZ.eq_def]
    dsimp only
    by_cases hc : c = '\\' ∧ c2 = 'Z'
    · rw [if_pos hc]; simp
    · rw [if_neg hc]
      intro hh
      exact h (by simpa using hh)

theorem replaceZZ_match (t : List Char) :
    replaceZZ ('\\' :: 'Z' :: t) = '$' :: replaceZZ t := by
  rw [replaceZZ.eq_def]; simp

theorem replaceZZ_cons_ne (c1 c2 : Char) (t : List Char) (h : ¬(c1 = '\\' ∧ c2 = 'Z')) :
    replaceZZ (c1 :: c2 :: t) = c1 :: replaceZZ (c2 :: t) := by
  rw [replaceZZ.eq_def]
  dsimp only
  rw [if_neg h]

theorem countZZ_replaceZZ (s : List Char) : countZZ (replaceZZ s) = 0 := by
  induction s using replaceZZ.induct with
  | case1 c1 c2 rest h ih =>
    obtain ⟨h1, h2⟩ := h
    subst h1; subst h2
    rw [replaceZZ_match]
    rw [countZZ_cons_ne '$' _ (by decide), ih]
  | case2 c1 c2 rest h ih =>
    rw [replaceZZ_cons_ne c1 c2 rest h]
    by_cases hc1 : c1 = '\\'
    · subst hc1
      have hc2 : ¬c2 = 'Z' := fun hh => h ⟨rfl, hh⟩
      rw [countZZ_cons_backslash _ (replaceZZ_head_ne c2 rest hc2), ih]
    · rw [countZZ_cons_ne c1 _ hc1, ih]
  | case3 s h =>
    match s with
    | [] => rfl
    | [c] => rfl
    | c1 :: c2 :: rest => exact absurd rfl (h c1 c2 rest)

theorem countChar_replaceZZ (s : List Char) :
    countChar '$' (replaceZZ s) = countChar '$' s + countZZ s := by
  induction s using replaceZZ.induct with
  | case1 c1 c2 rest h ih =>
    obtain ⟨h1, h2⟩ := h
    subst h1; subst h2
    rw [replaceZZ_match, countChar_cons, ih, countChar_cons, countChar_cons,
      countZZ_match]
    simp
    omega
  | case2 c1 c2 rest h ih =>
    rw [replaceZZ_cons_ne c1 c2 rest h]
    simp only [countChar_cons]
    rw [ih, countZZ_cons2_ne c1 c2 rest h]
    simp only [countChar_cons]
    omega
  | case3 s h =>
    match s with
    | [] => rfl
    | [c] =>
      rw [show replaceZZ [c] = [c] from rfl, show countZZ [c] = 0 from rfl]
      simp
    | c1 :: c2 :: rest => exact absurd rfl (h c1 c2 rest)

theorem replaceAtomic_match (t : List Char) :
    replaceAtomic ('(' :: '?' :: '>' :: t) = '(' :: '?' :: ':' :: replaceAtomic t := by
  rw [replaceAtomic.eq_def]; simp

theorem replaceAtomic_cons_ne (c1 c2 c3 : Char) (t : List Char)
    (h : ¬(c1 = '(' ∧ c2 = '?' ∧ c3 = '>')) :
    replaceAtomic (c1 :: c2 :: c3 :: t) = c1 :: replaceAtomic (c2 :: c3 :: t) := by
  rw [replaceAtomic.eq_def]
  dsimp only
  rw [if_neg h]

theorem countAtomic_match (t : List Char) :
    countAtomic ('(' :: '?' :: '>' :: t) = countAtomic t + 1 := by
  rw [countAtomic.eq_def]; simp

theorem countAtomic_cons3_ne (c1 c2 c3 : Char) (t : List Char)
    (h : ¬(c1 = '(' ∧ c2 = '?' ∧ c3 = '>')) :
    countAtomic (c1 :: c2 :: c3 :: t) = countAtomic (c2 :: c3 :: t) := by
  rw [countAtomic.eq_def]
  dsimp only
  rw [if_neg h]

theorem countAtomic_short (s : List Char) (h : s.length < 3) : countAtomic s = 0 := by
  match s with
  | [] => rfl
  | [c] => rfl
  | [c, d] => rfl
  | c1 :: c2 :: c3 :: rest => simp at h; omega

theorem countNC_match (t : List Char) :
    countNC ('(' :: '?' :: ':' :: t) = countNC t + 1 := by
  rw [countNC.eq_def]; simp

theorem countNC_cons3_ne (c1 c2 c3 : Char) (t : List Char)
    (h : ¬(c1 = '(' ∧ c2 = '?' ∧ c3 = ':')) :
    countNC (c1 :: c2 :: c3 :: t) = countNC (c2 :: c3 :: t) := by
  rw [countNC.eq_def]
  dsimp only
  rw [if_neg h]

theorem countNC_short (s : List Char) (h : s.length < 3) : countNC s = 0 := by
  match s with
  | [] => rfl
  | [c] => rfl
  | [c, d] => rfl
  | c1 :: c2 :: c3 :: rest => simp at h; omega

theorem replaceAtomic_cons1 (c : Char) (t : List Char) :
    ∃ u, replaceAtomic (c :: t) = c :: u := by
  match t with
  | [] => exact ⟨[], rfl⟩
  | [d] => exact ⟨[d], rfl⟩
  | d :: e :: t2 =>
    by_cases hc : c = '(' ∧ d = '?' ∧ e = '>'
    · obtain ⟨h1, h2, h3⟩ := hc
      subst h1; subst h2; subst h3
      exact ⟨'?' :: ':' :: replaceAtomic t2, replaceAtomic_match t2⟩
    · exact ⟨replaceAtomic (d :: e :: t2), replaceAtomic_cons_ne c d e t2 hc⟩

theorem replaceAtomic_cons2 (c d : Char) (t : List Char) :
    ∃ u, replaceAtomic (c :: d :: t) = c :: d :: u := by
  match t with
  | [] => exact ⟨[], rfl⟩
  | e :: t2 =>
    by_cases hc : c = '(' ∧ d = '?' ∧ e = '>'
    · obtain ⟨h1, h2, h3⟩ := hc
      subst h1; subst h2; subst h3
      exact ⟨':' :: replaceAtomic t2, replaceAtomic_match t2⟩
    · obtain ⟨u, hu⟩ := replaceAtomic_cons1 d (e :: t2)
      exact ⟨u, by rw [replaceAtomic_cons_ne c d e t2 hc, hu]⟩

theorem countAtomic_cons1_ne (c : Char) (t : List Char) (h : ¬c = '(') :
    countAtomic (c :: t) = countAtomic t := by
  match t with
  | [] => rfl
  | [d] => rfl
  | d :: e :: t2 => exact countAtomic_cons3_ne c d e t2 (fun hh => h hh.1)

theorem countNC_cons1_ne (c : Char) (t : List Char) (h : ¬c = '(') :
    countNC (c :: t) = countNC t := by
  match t with
  | [] => rfl
  | [d] => rfl
  | d :: e :: t2 => exact countNC_cons3_ne c d e t2 (fun hh => h hh.1)

theorem countAtomic_replaceAtomic (s : List Char) :
    countAtomic (replaceAtomic s) = 0 := by
  induction s using replaceAtomic.induct with
  | case1 c1 c2 c3 rest h ih =>
    obtain ⟨h1, h2, h3⟩ := h
    subst h1; subst h2; subst h3
    rw [replaceAtomic_match]
    rw [countAtomic_cons3_ne '(' '?' ':' _ (by decide),
      countAtomic_cons1_ne '?' _ (by decide),
      countAtomic_cons1_ne ':' _ (by decide), ih]
  | case2 c1 c2 c3 rest h ih =>
    obtain ⟨u, hu⟩ := replaceAtomic_cons2 c2 c3 rest
    rw [replaceAtomic_cons_ne c1 c2 c3 rest h, hu]
    rw [hu] at ih
    rw [countAtomic_cons3_ne c1 c2 c3 u h]
    exact ih
  | case3 s h =>
    match s with
    | [] => rfl
    | [c] => rfl
    | [c, d] => rfl
    | c1 :: c2 :: c3 :: rest => exact absurd rfl (h c1 c2 c3 rest)

theorem countNC_replaceAtomic (s : List Char) :
    countNC (replaceAtomic s) = countNC s + countAtomic s := by
  induction s using replaceAtomic.induct with
  | case1 c1 c2 c3 rest h ih =>
    obtain ⟨h1, h2, h3⟩ := h
    subst h1; subst h2; subst h3
    rw [replaceAtomic_match, countNC_match, ih,
      countNC_cons3_ne '(' '?' '>' _ (by decide),
      countNC_cons1_ne '?' _ (by decide),
      countNC_cons1_ne '>' _ (by decide),
      countAtomic_match]
    omega
  | case2 c1 c2 c3 rest h ih =>
    obtain ⟨u, hu⟩ := replaceAtomic_cons2 c2 c3 rest
    rw [replaceAtomic_cons_ne c1 c2 c3 rest h, hu]
    rw [hu] at ih
    by_cases hnc : c1 = '(' ∧ c2 = '?' ∧ c3 = ':'
    · obtain ⟨g1, g2, g3⟩ := hnc
      subst g1; subst g2; subst g3
      rw [countNC_match, countNC_match,
        countAtomic_cons3_ne '(' '?' ':' rest (by decide)]
      rw [countNC_cons1_ne '?' _ (by decide), countNC_cons1_ne ':' _ (by decide),
        countNC_cons1_ne '?' _ (by decide), countNC_cons1_ne ':' _ (by decide),
        countAtomic_cons1_ne '?' _ (by decide),
        countAtomic_cons1_ne ':' _ (by decide)] at ih
      rw [countAtomic_cons1_ne '?' _ (by decide),
        countAtomic_cons1_ne ':' _ (by decide)]
      omega
    · rw [countNC_cons3_ne c1 c2 c3 u hnc, ih,
        countNC_cons3_ne c1 c2 c3 rest hnc,
        countAtomic_cons3_ne c1 c2 c3 rest h]
  | case3 s h =>
    match s with
    | [] => rfl
    | [c] => rfl
    | [c, d] => rfl
    | c1 :: c2 :: c3 :: rest => exact absurd rfl (h c1 c2 c3 rest)

theorem countAtomic_of_not_contains (s : List Char)
    (h : containsSub ['(', '?', '>'] s = false) : countAtomic s = 0 := by
  induction s using countAtomic.induct with
  | case1 c1 c2 c3 rest h1 ih =>
    obtain ⟨g1, g2, g3⟩ := h1
    subst g1; subst g2; subst g3
    rw [containsSub.eq_def] at h
    simp [List.isPrefixOf] at h
  | case2 c1 c2 c3 rest h1 ih =>
    rw [countAtomic_cons3_ne c1 c2 c3 rest h1]
    apply ih
    rw [containsSub.eq_def] at h
    dsimp only at h
    simp only [Bool.or_eq_false_iff] at h
    exact h.2
  | case3 s h1 =>
    match s with
    | [] => rfl
    | [c] => rfl
    | [c, d] => rfl
    | c1 :: c2 :: c3 :: rest => exact absurd rfl (h1 c1 c2 c3 rest)

theorem namedRefF_warnings_length (fuel : Nat) (s : List Char) :
    (namedRefF fuel s).2.length = countNamedRefF fuel s := by
  induction fuel, s using namedRefF.induct with
  | case1 s => rfl
  | case2 fuel c1 c2 c3 c4 rest2 hc d rest3 hd hgood ih =>
    rw [namedRefF.eq_def, countNamedRefF.eq_def]
    dsimp only
    rw [if_pos hc, hd]
    dsimp only
    rw [if_pos hgood, if_pos hgood]
    simp only [List.length_cons, ih]
    rw [if_pos hc]
  | case3 fuel c1 c2 c3 c4 rest2 hc d rest3 hd hbad ih =>
    rw [namedRefF.eq_def, countNamedRefF.eq_def]
    dsimp only
    rw [if_pos hc, hd]
    dsimp only
    rw [if_neg hbad, if_neg hbad]
    simpa using ih
  | case4 fuel c1 c2 c3 c4 rest2 hc hd ih =>
    rw [namedRefF.eq_def, countNamedRefF.eq_def]
    dsimp only
    rw [if_pos hc, hd]
    dsimp only
    simpa using ih
  | case5 fuel c1 c2 c3 c4 rest2 hc ih =>
    rw [namedRefF.eq_def, countNamedRefF.eq_def]
    dsimp only
    rw [if_neg hc, if_neg hc]
    simpa using ih
  | case6 n s h =>
    match s with
    | [] => rfl
    | [a] => rfl
    | [a, b] => rfl
    | [a, b, c] => rfl
    | a :: b :: c :: d :: r => exact absurd rfl (h a b c d r)

/-- C4 (amended, stage level): the named-back-reference rewrite emits
exactly one diagnostic per occurrence of `(?P=name)`, while the atomic-group
rewrite emits exactly one diagnostic as soon as `(?>` occurs at all,
independent of how many times it occurs. -/
theorem diagnostics_per_occurrence (s : List Char) :
    (handle_named_group_references s).2.length = countNamedRef s ∧
    (handle_atomic_groups s).2.length =
      (if containsSub ['(', '?', '>'] s then 1 else 0) := by
  constructor
  · exact namedRefF_warnings_length (s.length + 1) s
  · rw [handle_atomic_groups]
    by_cases hc : containsSub ['(', '?', '>'] s = true
    · rw [if_pos hc, if_pos hc]
      rfl
    · rw [if_neg hc, if_neg hc]
      rfl

/-- C4 counterexample: the pattern `(?>a)(?>b)` contains two occurrences of
the atomic-group opener `(?>`, but the conversion's warnings list contains
only one atomic-group diagnostic (the warning is appended once, guarded by a
containment test, not once per occurrence). -/
theorem atomic_diagnostics_counterexample :
    ¬ ((py_to_js_regex "(?>a)(?>b)" 0 false).2.1.length =
        countAtomic ("(?>a)(?>b)".data)) := by
  decide

/-- C5: converting `\Astart` with no flags yields the literal `/^start/`
with no diagnostics; and the anchor rewrite converts every occurrence of
`\A` to `^` and of `\Z` to `$` exactly once per occurrence regardless of
surrounding context: no occurrence survives, and the count of `^` (resp.
`$`) grows by exactly the number of `\A` (resp. `\Z`) occurrences. -/
theorem anchor_conversion_spec :
    py_to_js_regex "\\Astart" 0 false = (some "/^start/", [], []) ∧
    ∀ s : List Char,
      countAA (replaceAA s) = 0 ∧
      countChar '^' (replaceAA s) = countChar '^' s + countAA s ∧
      countZZ (replaceZZ s) = 0 ∧
      countChar '$' (replaceZZ s) = countChar '$' s + countZZ s := by
  refine ⟨by decide, fun s =>
    ⟨countAA_replaceAA s, countChar_replaceAA s, countZZ_replaceZZ s,
      countChar_replaceZZ s⟩⟩

/-- C6: converting `(?>atomic)` with no flags yields the literal
`/(?:atomic)/` together with exactly the one atomic-group-downgrade
diagnostic; and `handle_atomic_groups` replaces every atomic-group opener
`(?>` by the non-capturing opener `(?:`: none survives in its output, and
the count of `(?:` grows by exactly the number of `(?>` occurrences. -/
theorem atomic_group_conversion_spec :
    py_to_js_regex "(?>atomic)" 0 false = (some "/(?:atomic)/", [atomicWarning], []) ∧
    ∀ s : List Char,
      countAtomic (handle_atomic_groups s).1 = 0 ∧
      countNC (handle_atomic_groups s).1 = countNC s + countAtomic s := by
  refine ⟨by decide, fun s => ?_⟩
  rw [handle_atomic_groups]
  by_cases hc : containsSub ['(', '?', '>'] s = true
  · rw [if_pos hc]
    exact ⟨countAtomic_replaceAtomic s, countNC_replaceAtomic s⟩
  · rw [if_neg hc]
    have hf : containsSub ['(', '?', '>'] s = false := by
      revert hc; cases containsSub ['(', '?', '>'] s <;> simp
    have h0 := countAtomic_of_not_contains s hf
    exact ⟨h0, by simp [h0]⟩

/-- C7: `py_to_js_regex` is deterministic and stateless — it is a pure
function of its three arguments, reflecting that the source reads and
writes no state outside the call (all accumulators are local), so two calls
with identical arguments return identical `(js_regex, warnings, steps)`
triples. -/
theorem py_to_js_regex_deterministic (p1 p2 : String) (f1 f2 : Nat)
    (v1 v2 : Bool) (hp : p1 = p2) (hf : f1 = f2) (hv : v1 = v2) :
    py_to_js_regex p1 f1 v1 = py_to_js_regex p2 f2 v2 := by
  rw [hp, hf, hv]

/-- Witness for C7 at a concrete argument triple. -/
theorem py_to_js_regex_deterministic_witness :
    py_to_js_regex "a(b" 2 true = py_to_js_regex "a(b" 2 true :=
  py_to_js_regex_deterministic "a(b" "a(b" 2 2 true true rfl rfl rfl

theorem removeCommentsF_no_hash (fuel : Nat) (prev : Option Char) (s : List Char)
    (h : ∀ c ∈ s, ¬c = '#') : removeCommentsF fuel prev s = s := by
  induction fuel generalizing prev s with
  | zero => rfl
  | succ n ih =>
    cases s with
    | nil => rfl
    | cons c rest =>
      rw [removeCommentsF.eq_def]
      dsimp only
      rw [if_neg (fun hh : c = '#' ∧ prev ≠ some '\\' => h c (by simp) hh.1)]
      rw [ih (some c) rest (fun d hd => h d (by simp [hd]))]

theorem removeWsF_no_space (fuel : Nat) (s : List Char)
    (h : ∀ c ∈ s, pyIsSpace c = false) : removeWsF fuel s = s := by
  induction fuel generalizing s with
  | zero => rfl
  | succ n ih =>
    cases s with
    | nil => rfl
    | cons c rest =>
      rw [removeWsF.eq_def]
      dsimp only
      rw [if_neg (by simp [h c (by simp)])]
      rw [ih rest (fun d hd => h d (by simp [hd]))]

theorem removeInlineX_cons_ne (c1 c2 c3 c4 : Char) (t : List Char)
    (h : ¬(c1 = '(' ∧ c2 = '?' ∧ c3 = 'x' ∧ c4 = ')')) :
    removeInlineX (c1 :: c2 :: c3 :: c4 :: t) = c1 :: removeInlineX (c2 :: c3 :: c4 :: t) := by
  rw [removeInlineX.eq_def]
  dsimp only
  rw [if_neg h]

theorem containsSub_cons_false (needle : List Char) (c : Char) (rest : List Char)
    (h : containsSub needle (c :: rest) = false) :
    containsSub needle rest = false := by
  rw [containsSub.eq_def] at h
  dsimp only at h
  simp only [Bool.or_eq_false_iff] at h
  exact h.2

theorem removeInlineX_of_not_contains (s : List Char)
    (h : containsSub ['(', '?', 'x', ')'] s = false) : removeInlineX s = s := by
  induction s using removeInlineX.induct with
  | case1 c1 c2 c3 c4 rest hcond ih =>
    obtain ⟨g1, g2, g3, g4⟩ := hcond
    subst g1; subst g2; subst g3; subst g4
    rw [containsSub.eq_def] at h
    simp [List.isPrefixOf] at h
  | case2 c1 c2 c3 c4 rest hcond ih =>
    rw [removeInlineX_cons_ne c1 c2 c3 c4 rest hcond]
    rw [ih (containsSub_cons_false _ c1 _ h)]
  | case3 s hshort =>
    match s with
    | [] => rfl
    | [a] => rfl
    | [a, b] => rfl
    | [a, b, c] => rfl
    | a :: b :: c :: d :: r => exact absurd rfl (hshort a b c d r)

theorem dropWhile_eq_self_of_false (p : Char → Bool) (s : List Char)
    (h : ∀ c ∈ s, p c = false) : s.dropWhile p = s := by
  cases s with
  | nil => rfl
  | cons c rest => simp [List.dropWhile_cons, h c (by simp)]

theorem pyStrip_no_space (s : List Char)
    (h : ∀ c ∈ s, pyIsSpace c = false) : pyStrip s = s := by
  unfold pyStrip
  rw [dropWhile_eq_self_of_false pyIsSpace s h,
    dropWhile_eq_self_of_false pyIsSpace s.reverse
      (fun c hc => h c (List.mem_reverse.mp hc)),
    List.reverse_reverse]

/-- C8: verbose idempotence — applying the comment/whitespace normalizer
`handle_verbose_mode` to an already-dense pattern (no whitespace, no `#`,
no inline `(?x)` marker) returns the pattern unchanged. -/
theorem handle_verbose_mode_dense_noop (s : List Char) (h : isDense s = true) :
    handle_verbose_mode s = s := by
  have hall : ∀ c ∈ s, pyIsSpace c = false ∧ ¬c = '#' := by
    intro c hc
    have := (Bool.and_eq_true _ _).mp h
    have h1 := (List.all_eq_true.mp this.1) c hc
    simp only [Bool.and_eq_true, Bool.not_eq_true'] at h1
    exact ⟨h1.1, by simpa using h1.2⟩
  have hx : containsSub ['(', '?', 'x', ')'] s = false := by
    have := (Bool.and_eq_true _ _).mp h
    simpa using this.2
  unfold handle_verbose_mode
  dsimp only
  rw [removeCommentsF_no_hash _ none s (fun c hc => (hall c hc).2)]
  rw [removeWsF_no_space _ s (fun c hc => (hall c hc).1)]
  rw [removeInlineX_of_not_contains s hx]
  rw [pyStrip_no_space s (fun c hc => (hall c hc).1)]

/-- Witness for C8: the dense pattern `a(b)c` is returned unchanged. -/
theorem handle_verbose_mode_dense_noop_witness :
    handle_verbose_mode ['a', '(', 'b', ')', 'c'] = ['a', '(', 'b', ')', 'c'] :=
  handle_verbose_mode_dense_noop ['a', '(', 'b', ')', 'c'] (by decide)

theorem lstripR_replicate (n : Nat) (s : List Char) :
    lstripR (List.replicate n 'r' ++ s) = lstripR s := by
  induction n with
  | zero => rfl
  | succ m ih =>
    have he : List.replicate (m + 1) 'r' ++ s = 'r' :: (List.replicate m 'r' ++ s) := rfl
    rw [he]
    unfold lstripR
    rw [List.dropWhile_cons]
    simp only [if_pos rfl]
    exact ih

theorem lstripR_eq_self (s : List Char) (h : ¬s.head? = some 'r') :
    lstripR s = s := by
  cases s with
  | nil => rfl
  | cons c rest =>
    have hc : ¬c = 'r' := by intro hh; exact h (by rw [hh]; rfl)
    unfold lstripR
    rw [List.dropWhile_cons]
    simp [hc]

/-- C9: the raw-string-marker stripping step removes every leading `r`, not
only a single prefix marker: for an input beginning with `n ≥ 1` copies of
`r` followed by a remainder not starting with `r`, all `n` are removed (and
the surrounding quote characters stripped) before any further processing —
the first pipeline stage maps it to the quote-stripped remainder,
independently of `n`. -/
theorem raw_marker_strips_all (n : Nat) (s : List Char) (hn : 1 ≤ n)
    (hs : ¬s.head? = some 'r') :
    lstripR (List.replicate n 'r' ++ s) = s ∧
    stripStage (List.replicate n 'r' ++ s) = stripQuotes s := by
  have h1 : lstripR (List.replicate n 'r' ++ s) = s := by
    rw [lstripR_replicate, lstripR_eq_self s hs]
  exact ⟨h1, by rw [stripStage, h1]⟩

/-- Witness for C9: `rr'abc'` (two markers, then a quoted body) strips to
`abc`. -/
theorem raw_marker_strips_all_witness :
    lstripR (List.replicate 2 'r' ++ ['\x27', 'a', 'b', 'c', '\x27']) =
      ['\x27', 'a', 'b', 'c', '\x27'] ∧
    stripStage (List.replicate 2 'r' ++ ['\x27', 'a', 'b', 'c', '\x27']) =
      stripQuotes ['\x27', 'a', 'b', 'c', '\x27'] :=
  raw_marker_strips_all 2 ['\x27', 'a', 'b', 'c', '\x27'] (by decide) (by decide)

/-- C10: every invocation of `py_to_js_regex` returns through the success
path: no stage raises `RegexConversionError` (the class is never raised in
the source), so the `None` failure branch is unreachable and the returned
regex is always `some` literal of the form `/<body>/<flag-letters>`, the
flag letters being `handle_flags` of the flags after the VERBOSE bit is
cleared; exactly one outcome is produced per invocation because the result
is a single tuple. -/
theorem py_to_js_regex_always_success (p : String) (f : Nat) (v : Bool) :
    ∃ body warns steps, py_to_js_regex p f v =
      (some ("/" ++ body ++ "/" ++ handle_flags (if f &&& 64 ≠ 0 then f - 64 else f)),
        warns, steps) := by
  exact ⟨_, _, _, rfl⟩
